import Mathlib

/-!
Shallow embedding of the `fwd` port-forwarding tunnel (src/src/lib.rs),
covering the wire-message taxonomy, the connection table, the reader
dispatchers, the handshake, the stdio synchronization scan, and the
Ports reconciliation logic, together with proofs of the specification
claims about them.

Conventions: Rust `u64` / `u16` / byte values are modelled as `Nat`
(no arithmetic in the modelled code can overflow: the only arithmetic
is `next_id += 1` on a `u64` counter, whose wraparound is unreachable
in any session, and comparisons on `u16`).  `HashMap<K, V>` is
modelled extensionally as `K → Option V`.  Channel endpoints
(`oneshot::Sender<()>`, `mpsc::Sender<Bytes>`) are modelled by `Nat`
identities, since the code only stores, takes and signals them.
-/

namespace Fwd

/-- Modelled from the spec: the `message` module is not among the provided
sources; the taxonomy follows spec §4.1 and the constructor usage visible in
`lib.rs` (`Ping`, `Hello(major, minor, extensions)`, `Refresh`,
`Ports(vec<PortDesc>)`, `Connect(channel, port)`, `Connected(channel)`,
`Close(channel)`, `Data(channel, buf)`). -/
structure PortDesc where
  port : Nat
  desc : String
deriving DecidableEq, Repr

/-- Modelled from the spec: wire message taxonomy (spec §4.1), matching the
variants used throughout `lib.rs`. -/
inductive Message where
  | Ping : Message
  | Hello (major minor : Nat) (extensions : List String) : Message
  | Refresh : Message
  | Ports (ports : List PortDesc) : Message
  | Connect (channel : Nat) (port : Nat) : Message
  | Connected (channel : Nat) : Message
  | Close (channel : Nat) : Message
  | Data (channel : Nat) (buf : List Nat) : Message
deriving DecidableEq, Repr

/-- Error taxonomy of `lib.rs` (`enum Error`).  The `IO(tokio::io::Error)`
variant is modelled as `IOErr` carrying the error kind as a `Nat`. -/
inductive Error where
  | Protocol : Error
  | ProtocolVersion : Error
  | IOErr (kind : Nat) : Error
  | MessageIncomplete : Error
  | MessageUnknown : Error
  | MessageCorrupt : Error
  | ConnectionReset : Error
  | ProcFs (s : String) : Error
  | NotSupported : Error
deriving DecidableEq, Repr

/-! ## Connection table (`struct Connection`, `ConnectionTableState`, `impl ConnectionTable`) -/

/-- One table entry: `Connection { connected: Option<oneshot::Sender<()>>,
data: mpsc::Sender<Bytes> }`, with the two channel endpoints modelled by
their `Nat` identities. -/
structure Connection where
  connected : Option Nat
  data : Nat
deriving DecidableEq, Repr

/-- The state behind the table's mutex: `ConnectionTableState { next_id: u64,
connections: HashMap<u64, Connection> }`; the hash map is modelled
extensionally. -/
structure ConnectionTableState where
  next_id : Nat
  connections : Nat → Option Connection

/-- Extensionality for table states. -/
theorem ConnectionTableState.ext {a b : ConnectionTableState}
    (h1 : a.next_id = b.next_id) (h2 : ∀ k, a.connections k = b.connections k) :
    a = b := by
  cases a; cases b
  simp only [ConnectionTableState.mk.injEq]
  exact ⟨h1, funext h2⟩

namespace ConnectionTable

/-- `ConnectionTable::new`: `next_id = 0`, empty map. -/
def new : ConnectionTableState :=
  { next_id := 0, connections := fun _ => none }

/-- `ConnectionTable::alloc`: take `id = next_id`, increment `next_id`, insert
`Connection { connected: Some(connected), data }` at `id`, return `id`.
The returned id comes first in the pair. -/
def alloc (tbl : ConnectionTableState) (connected : Nat) (data : Nat) :
    Nat × ConnectionTableState :=
  let id := tbl.next_id
  (id,
    { next_id := tbl.next_id + 1,
      connections := fun k =>
        if k = id then some { connected := some connected, data := data }
        else tbl.connections k })

/-- `ConnectionTable::add`: insert `Connection { connected: None, data }` at
the externally chosen `id`. -/
def add (tbl : ConnectionTableState) (id : Nat) (data : Nat) :
    ConnectionTableState :=
  { tbl with
    connections := fun k =>
      if k = id then some { connected := none, data := data }
      else tbl.connections k }

/-- `ConnectionTable::connected`: under the lock, if an entry exists, `take()`
its notifier (leaving `None` in place); outside the lock, signal the taken
notifier if any.  The second component is the notifier that got signalled. -/
def connected (tbl : ConnectionTableState) (id : Nat) :
    ConnectionTableState × Option Nat :=
  match tbl.connections id with
  | some c =>
      ({ tbl with
          connections := fun k =>
            if k = id then some { connected := none, data := c.data }
            else tbl.connections k },
        c.connected)
  | none => (tbl, none)

/-- `ConnectionTable::receive`: takes `&self` (the map is not mutated); if an
entry exists its `data` sender is cloned and the payload sent on it.  The
result is the unchanged table together with the delivery `(queue, payload)`
performed, if any. -/
def receive (tbl : ConnectionTableState) (id : Nat) (buf : List Nat) :
    ConnectionTableState × Option (Nat × List Nat) :=
  match tbl.connections id with
  | some c => (tbl, some (c.data, buf))
  | none => (tbl, none)

/-- `ConnectionTable::remove`: `connections.remove(&id)`. -/
def remove (tbl : ConnectionTableState) (id : Nat) : ConnectionTableState :=
  { tbl with
    connections := fun k => if k = id then none else tbl.connections k }

end ConnectionTable

/-! ## C8: `remove` is idempotent and absent-id `remove` is a no-op -/

/-- C8: for every connection-table state and channel ID, `remove` twice equals
`remove` once, and removing an absent ID leaves the table unchanged (and the
operation has no error outcome: its type is total). -/
theorem remove_idempotent (tbl : ConnectionTableState) (id : Nat) :
    ConnectionTable.remove (ConnectionTable.remove tbl id) id =
      ConnectionTable.remove tbl id ∧
    (tbl.connections id = none → ConnectionTable.remove tbl id = tbl) := by
  constructor
  · refine ConnectionTableState.ext rfl fun k => ?_
    simp only [ConnectionTable.remove]
    by_cases h : k = id <;> simp [h]
  · intro habs
    refine ConnectionTableState.ext rfl fun k => ?_
    simp only [ConnectionTable.remove]
    by_cases h : k = id <;> simp [h, habs]

/-- Witness for `remove_idempotent` at a concrete table and id. -/
theorem remove_idempotent_witness :
    ConnectionTable.remove ConnectionTable.new 3 = ConnectionTable.new :=
  (remove_idempotent ConnectionTable.new 3).2 rfl

/-! ## C9: `connected` fires the notifier at most once -/

/-- Equation lemma: `connected` on an absent id is a no-op signalling
nothing. -/
theorem connected_of_none {tbl : ConnectionTableState} {id : Nat}
    (h : tbl.connections id = none) :
    ConnectionTable.connected tbl id = (tbl, none) := by
  unfold ConnectionTable.connected
  rw [h]

/-- Equation lemma: `connected` on a present entry consumes its notifier slot
and signals the taken value. -/
theorem connected_of_some {tbl : ConnectionTableState} {id : Nat}
    {c : Connection} (h : tbl.connections id = some c) :
    ConnectionTable.connected tbl id =
      ({ tbl with
          connections := fun k =>
            if k = id then some { connected := none, data := c.data }
            else tbl.connections k },
        c.connected) := by
  unfold ConnectionTable.connected
  rw [h]

/-- C9: the notifier signalled by `connected tbl id` is exactly the unconsumed
notifier of an existing entry; when the entry exists it is kept with its
notifier consumed; a signal-free call leaves the table unchanged; and a second
`connected` on the same id is a no-op that signals nothing. -/
theorem connected_at_most_once (tbl : ConnectionTableState) (id : Nat) :
    (ConnectionTable.connected tbl id).2 =
      (tbl.connections id).bind Connection.connected ∧
    (∀ c, tbl.connections id = some c →
      (ConnectionTable.connected tbl id).1.connections id =
        some { connected := none, data := c.data }) ∧
    ((ConnectionTable.connected tbl id).2 = none →
      (ConnectionTable.connected tbl id).1 = tbl) ∧
    ConnectionTable.connected (ConnectionTable.connected tbl id).1 id =
      ((ConnectionTable.connected tbl id).1, none) := by
  cases h : tbl.connections id with
  | none =>
      rw [connected_of_none h]
      refine ⟨rfl, ?_, fun _ => rfl, connected_of_none h⟩
      intro c hc
      exact absurd hc (by simp)
  | some c =>
      rw [connected_of_some h]
      refine ⟨rfl, ?_, ?_, ?_⟩
      · intro c' hc'
        injection hc' with hcc
        subst hcc
        simp
      · intro hn
        have hcc : c.connected = none := hn
        refine ConnectionTableState.ext rfl fun k => ?_
        show (if k = id then some { connected := none, data := c.data }
            else tbl.connections k) = tbl.connections k
        by_cases hk : k = id
        · subst hk
          rw [if_pos rfl, h]
          cases c with
          | mk cc cd =>
              cases hcc
              rfl
        · rw [if_neg hk]
      · have h1 : (({ tbl with
            connections := fun k =>
              if k = id then some { connected := none, data := c.data }
              else tbl.connections k } : ConnectionTableState),
            c.connected).1.connections id =
            some { connected := none, data := c.data } := by simp
        rw [connected_of_some h1]
        simp only [Prod.mk.injEq]
        refine ⟨ConnectionTableState.ext rfl fun k => ?_, trivial⟩
        by_cases hk : k = id
        · subst hk
          simp
        · simp [hk]


/-- Witness for `connected_at_most_once`: on the table obtained by allocating
channel 0 with notifier 7 and queue 9, `connected 0` signals notifier 7 and
leaves the entry in place with its notifier consumed. -/
theorem connected_at_most_once_witness :
    (ConnectionTable.connected (ConnectionTable.alloc ConnectionTable.new 7 9).2 0).2 = some 7 ∧
    (ConnectionTable.connected
        (ConnectionTable.alloc ConnectionTable.new 7 9).2 0).1.connections 0 =
      some { connected := none, data := 9 } := by
  have h := connected_at_most_once (ConnectionTable.alloc ConnectionTable.new 7 9).2 0
  exact ⟨by rw [h.1]; rfl, h.2.1 { connected := some 7, data := 9 } rfl⟩

/-! ## C7: `receive` on an unknown channel silently drops the payload -/

/-- C7: for a channel id absent from the table, `receive` completes (its type
is total, no error outcome), delivers to no queue, and leaves the table
unchanged. -/
theorem receive_unknown_dropped (tbl : ConnectionTableState) (id : Nat)
    (buf : List Nat) (h : tbl.connections id = none) :
    ConnectionTable.receive tbl id buf = (tbl, none) := by
  simp [ConnectionTable.receive, h]

/-- Witness for `receive_unknown_dropped` on the empty table. -/
theorem receive_unknown_dropped_witness :
    ConnectionTable.receive ConnectionTable.new 5 [1, 2] = (ConnectionTable.new, none) :=
  receive_unknown_dropped ConnectionTable.new 5 [1, 2] rfl

/-! ## C10: frame conditions of the connection-table operations -/

/-- C10: `alloc` returns the old `next_id`, bumps it by exactly one and leaves
entries at other keys unchanged; `add`, `connected` and `remove` leave
`next_id` and every other key unchanged; `receive` leaves the whole table
unchanged. -/
theorem table_ops_frame (tbl : ConnectionTableState) (id cn d : Nat)
    (buf : List Nat) :
    ((ConnectionTable.alloc tbl cn d).1 = tbl.next_id ∧
      (ConnectionTable.alloc tbl cn d).2.next_id = tbl.next_id + 1 ∧
      ∀ k, k ≠ tbl.next_id →
        (ConnectionTable.alloc tbl cn d).2.connections k = tbl.connections k) ∧
    ((ConnectionTable.add tbl id d).next_id = tbl.next_id ∧
      ∀ k, k ≠ id → (ConnectionTable.add tbl id d).connections k = tbl.connections k) ∧
    ((ConnectionTable.connected tbl id).1.next_id = tbl.next_id ∧
      ∀ k, k ≠ id →
        (ConnectionTable.connected tbl id).1.connections k = tbl.connections k) ∧
    (ConnectionTable.receive tbl id buf).1 = tbl ∧
    ((ConnectionTable.remove tbl id).next_id = tbl.next_id ∧
      ∀ k, k ≠ id → (ConnectionTable.remove tbl id).connections k = tbl.connections k) := by
  refine ⟨⟨rfl, rfl, fun k hk => ?_⟩, ⟨rfl, fun k hk => ?_⟩, ⟨?_, fun k hk => ?_⟩, ?_, ⟨rfl, fun k hk => ?_⟩⟩
  · simp [ConnectionTable.alloc, hk]
  · simp [ConnectionTable.add, hk]
  · rcases h : tbl.connections id with _ | c <;> simp [ConnectionTable.connected, h]
  · rcases h : tbl.connections id with _ | c <;> simp [ConnectionTable.connected, h, hk]
  · rcases h : tbl.connections id with _ | c <;> simp [ConnectionTable.receive, h]
  · simp [ConnectionTable.remove, hk]

/-- Witness for `table_ops_frame` at concrete keys. -/
theorem table_ops_frame_witness :
    (ConnectionTable.alloc ConnectionTable.new 1 2).2.connections 5 =
      ConnectionTable.new.connections 5 ∧
    (ConnectionTable.remove ConnectionTable.new 3).connections 4 =
      ConnectionTable.new.connections 4 := by
  have h := table_ops_frame ConnectionTable.new 3 1 2 []
  exact ⟨h.1.2.2 5 (by decide), h.2.2.2.2.2 4 (by decide)⟩

/-! ## C4: channel-id allocation is monotonic and never reuses ids -/

/-- One operation on the connection table, as invoked by the endpoint tasks. -/
inductive TableOp where
  | allocOp (connected : Nat) (data : Nat) : TableOp
  | addOp (id : Nat) (data : Nat) : TableOp
  | connectedOp (id : Nat) : TableOp
  | receiveOp (id : Nat) (buf : List Nat) : TableOp
  | removeOp (id : Nat) : TableOp
deriving DecidableEq, Repr

/-- Apply one table operation; the second component is the id returned when
the operation is an `alloc`. -/
def runOp (tbl : ConnectionTableState) : TableOp → ConnectionTableState × Option Nat
  | TableOp.allocOp cn d =>
      ((ConnectionTable.alloc tbl cn d).2, some (ConnectionTable.alloc tbl cn d).1)
  | TableOp.addOp id d => (ConnectionTable.add tbl id d, none)
  | TableOp.connectedOp id => ((ConnectionTable.connected tbl id).1, none)
  | TableOp.receiveOp id buf => ((ConnectionTable.receive tbl id buf).1, none)
  | TableOp.removeOp id => (ConnectionTable.remove tbl id, none)

/-- Run a sequence of table operations, collecting the ids returned by
`alloc` in order. -/
def runOps (tbl : ConnectionTableState) : List TableOp → ConnectionTableState × List Nat
  | [] => (tbl, [])
  | op :: rest =>
      ((runOps (runOp tbl op).1 rest).1,
        (runOp tbl op).2.toList ++ (runOps (runOp tbl op).1 rest).2)

/-- Number of `alloc` operations in a list. -/
def numAllocs : List TableOp → Nat
  | [] => 0
  | TableOp.allocOp _ _ :: rest => numAllocs rest + 1
  | _ :: rest => numAllocs rest

/-- The `receive` operation returns the table it was given. -/
theorem receive_fst (tbl : ConnectionTableState) (id : Nat) (buf : List Nat) :
    (ConnectionTable.receive tbl id buf).1 = tbl := by
  unfold ConnectionTable.receive
  cases tbl.connections id <;> rfl

/-- The `connected` operation never changes `next_id`. -/
theorem connected_fst_next_id (tbl : ConnectionTableState) (id : Nat) :
    (ConnectionTable.connected tbl id).1.next_id = tbl.next_id := by
  cases h : tbl.connections id with
  | none => rw [connected_of_none h]
  | some c => rw [connected_of_some h]

/-- Step lemma for the C4 invariant, covering every operation other than
`alloc`: it allocates no id and preserves `next_id`, so the invariant passes
through. -/
theorem runOps_allocs_aux (tbl : ConnectionTableState) (op : TableOp)
    (rest : List TableOp)
    (ih : ∀ t : ConnectionTableState,
      (runOps t rest).2 = List.range' t.next_id (numAllocs rest) ∧
      (runOps t rest).1.next_id = t.next_id + numAllocs rest)
    (hsnd : (runOp tbl op).2 = none)
    (hnid : (runOp tbl op).1.next_id = tbl.next_id)
    (hnum : numAllocs (op :: rest) = numAllocs rest) :
    (runOps tbl (op :: rest)).2 = List.range' tbl.next_id (numAllocs (op :: rest)) ∧
    (runOps tbl (op :: rest)).1.next_id = tbl.next_id + numAllocs (op :: rest) := by
  have h := ih (runOp tbl op).1
  rw [hnum]
  constructor
  · show (runOp tbl op).2.toList ++ (runOps (runOp tbl op).1 rest).2 =
      List.range' tbl.next_id (numAllocs rest)
    rw [hsnd, h.1, hnid]
    rfl
  · show (runOps (runOp tbl op).1 rest).1.next_id = tbl.next_id + numAllocs rest
    rw [h.2, hnid]

/-- Invariant behind C4: from any table the collected `alloc` results are the
consecutive ids starting at the current `next_id`, and the final `next_id` is
the start plus the number of allocations. -/
theorem runOps_allocs (ops : List TableOp) (tbl : ConnectionTableState) :
    (runOps tbl ops).2 = List.range' tbl.next_id (numAllocs ops) ∧
    (runOps tbl ops).1.next_id = tbl.next_id + numAllocs ops := by
  induction ops generalizing tbl with
  | nil => exact ⟨rfl, rfl⟩
  | cons op rest ih =>
      cases op with
      | allocOp cn d =>
          have hnext1 : (runOp tbl (TableOp.allocOp cn d)).1.next_id =
              tbl.next_id + 1 := rfl
          have h := ih (runOp tbl (TableOp.allocOp cn d)).1
          refine ⟨?_, ?_⟩
          · show (some tbl.next_id).toList ++
                (runOps (runOp tbl (TableOp.allocOp cn d)).1 rest).2 =
              List.range' tbl.next_id (numAllocs rest + 1)
            rw [List.range'_succ, h.1, hnext1]
            rfl
          · show (runOps (runOp tbl (TableOp.allocOp cn d)).1 rest).1.next_id =
              tbl.next_id + (numAllocs rest + 1)
            rw [h.2, hnext1]
            omega
      | addOp id d => exact runOps_allocs_aux tbl _ rest ih rfl rfl rfl
      | connectedOp id =>
          exact runOps_allocs_aux tbl _ rest ih rfl (connected_fst_next_id tbl id) rfl
      | receiveOp id buf =>
          exact runOps_allocs_aux tbl _ rest ih rfl
            (congrArg ConnectionTableState.next_id (receive_fst tbl id buf)) rfl
      | removeOp id => exact runOps_allocs_aux tbl _ rest ih rfl rfl rfl

/-- C4: from a fresh table, under any interleaving of operations the ids
returned by `alloc` are consecutively 0, 1, 2, … (hence each is strictly
greater than all earlier ones and never reused), and `next_id` stays strictly
greater than every id `alloc` has returned. -/
theorem alloc_monotonic (ops : List TableOp) :
    (runOps ConnectionTable.new ops).2 = List.range (numAllocs ops) ∧
    ∀ i ∈ (runOps ConnectionTable.new ops).2,
      i < (runOps ConnectionTable.new ops).1.next_id := by
  have h := runOps_allocs ops ConnectionTable.new
  have hzero : ConnectionTable.new.next_id = 0 := rfl
  constructor
  · rw [h.1, hzero, List.range_eq_range']
  · intro i hi
    rw [h.1, hzero] at hi
    rw [h.2, hzero]
    have := List.mem_range'_1.mp hi
    omega

/-- Witness for `alloc_monotonic` on a concrete interleaving: two allocations
with a removal in between return ids 0 and 1, both below the final
`next_id`. -/
theorem alloc_monotonic_witness :
    (runOps ConnectionTable.new
        [TableOp.allocOp 1 2, TableOp.removeOp 0, TableOp.allocOp 3 4]).2 =
      List.range 2 ∧
    0 < (runOps ConnectionTable.new
        [TableOp.allocOp 1 2, TableOp.removeOp 0, TableOp.allocOp 3 4]).1.next_id := by
  have h := alloc_monotonic [TableOp.allocOp 1 2, TableOp.removeOp 0, TableOp.allocOp 3 4]
  refine ⟨h.1, h.2 0 ?_⟩
  rw [h.1]
  decide

/-! ## C6: server-side Connect handling -/

/-- Events observable from `server_handle_connection`, in program order: the
dial attempt to `127.0.0.1:port`, the table insertion via `add`, and messages
sent to the writer pump. -/
inductive SEvent where
  | dialed (port : Nat) (ok : Bool) : SEvent
  | tableAdd (channel : Nat) (data : Nat) : SEvent
  | sent (m : Message) : SEvent
deriving DecidableEq, Repr

/-- `server_handle_connection` (lib.rs lines 172–189): dial `127.0.0.1:port`;
on failure do nothing further (no message, no table change); on success create
the data queue (identity `qid`), `add(channel, send_data)`, then send
`Connected(channel)` to the writer pump.  `dialOk` models the outcome of
`TcpStream::connect`; the subsequent bridge `connection::process` is outside
the modelled scope.  Returns the final table and the event trace in program
order. -/
def server_handle_connection (channel port : Nat) (dialOk : Bool) (qid : Nat)
    (tbl : ConnectionTableState) : ConnectionTableState × List SEvent :=
  if dialOk then
    (ConnectionTable.add tbl channel qid,
      [SEvent.dialed port true, SEvent.tableAdd channel qid,
        SEvent.sent (Message.Connected channel)])
  else (tbl, [SEvent.dialed port false])

/-- C6: a failed dial emits no message (in particular no `Close`) and leaves
the table unchanged; a successful dial inserts a notifier-free entry via `add`
and only afterwards sends `Connected(channel)`. -/
theorem server_connect_handling (channel port qid : Nat)
    (tbl : ConnectionTableState) :
    server_handle_connection channel port false qid tbl =
      (tbl, [SEvent.dialed port false]) ∧
    server_handle_connection channel port true qid tbl =
      (ConnectionTable.add tbl channel qid,
        [SEvent.dialed port true, SEvent.tableAdd channel qid,
          SEvent.sent (Message.Connected channel)]) ∧
    (ConnectionTable.add tbl channel qid).connections channel =
      some { connected := none, data := qid } := by
  exact ⟨rfl, rfl, by simp [ConnectionTable.add]⟩

/-! ## C3: stdio synchronization scan -/

/-- The scanning loop of `client_sync` (lib.rs lines 287–298): with `seen`
zero bytes already counted, bytes are read while `seen < 8`; a zero byte
increments `seen`, a non-zero byte resets it to 0; reading past the end of
the input (an I/O error on `read_u8`) fails.  On success the unconsumed
remainder of the input is returned. -/
def client_sync_loop : Nat → List Nat → Option (List Nat)
  | seen, input =>
    if seen < 8 then
      match input with
      | [] => none
      | b :: rest => client_sync_loop (if b = 0 then seen + 1 else 0) rest
    else some input

/-- `client_sync` runs the scanning loop starting from `seen = 0`. -/
def client_sync (input : List Nat) : Option (List Nat) :=
  client_sync_loop 0 input

/-- The byte list contains a run of eight consecutive zero bytes. -/
def containsRun8 (l : List Nat) : Prop :=
  ∃ p s, l = p ++ (List.replicate 8 0 ++ s)

/-- The byte list begins with `k` zero bytes. -/
def startsZeros (k : Nat) (l : List Nat) : Prop :=
  ∃ s, l = List.replicate k 0 ++ s

theorem client_sync_loop_done {seen : Nat} (h : 8 ≤ seen) (input : List Nat) :
    client_sync_loop seen input = some input := by
  unfold client_sync_loop
  rw [if_neg (by omega)]

theorem client_sync_loop_nil {seen : Nat} (h : seen < 8) :
    client_sync_loop seen [] = none := by
  unfold client_sync_loop
  rw [if_pos h]

theorem client_sync_loop_cons {seen : Nat} (h : seen < 8) (b : Nat)
    (rest : List Nat) :
    client_sync_loop seen (b :: rest) =
      client_sync_loop (if b = 0 then seen + 1 else 0) rest := by
  conv_lhs => unfold client_sync_loop
  rw [if_pos h]

theorem replicate_eight :
    List.replicate 8 (0 : Nat) = 0 :: List.replicate 7 0 := rfl

theorem startsZeros_succ_cons (k b : Nat) (t : List Nat) :
    startsZeros (k + 1) (b :: t) ↔ b = 0 ∧ startsZeros k t := by
  constructor
  · rintro ⟨s, hs⟩
    rw [List.replicate_succ, List.cons_append] at hs
    injection hs with h1 h2
    exact ⟨h1, s, h2⟩
  · rintro ⟨hb, s, hs⟩
    subst hb
    exact ⟨s, by rw [List.replicate_succ, List.cons_append, hs]⟩

theorem startsZeros_mono {k n : Nat} (h : k ≤ n) {t : List Nat}
    (hz : startsZeros n t) : startsZeros k t := by
  obtain ⟨s, hs⟩ := hz
  refine ⟨List.replicate (n - k) 0 ++ s, ?_⟩
  rw [hs, ← List.append_assoc, ← List.replicate_add, Nat.add_sub_cancel' h]

theorem containsRun8_cons (b : Nat) (t : List Nat) :
    containsRun8 (b :: t) ↔ (b = 0 ∧ startsZeros 7 t) ∨ containsRun8 t := by
  constructor
  · rintro ⟨p, s, hs⟩
    cases p with
    | nil =>
        rw [List.nil_append, replicate_eight, List.cons_append] at hs
        injection hs with h1 h2
        exact Or.inl ⟨h1, s, h2⟩
    | cons a p' =>
        rw [List.cons_append] at hs
        injection hs with h1 h2
        exact Or.inr ⟨p', s, h2⟩
  · rintro (⟨hb, s, hs⟩ | ⟨p, s, hs⟩)
    · subst hb
      exact ⟨[], s, by rw [List.nil_append, replicate_eight, List.cons_append, hs]⟩
    · exact ⟨b :: p, s, by rw [List.cons_append, hs]⟩

theorem containsRun8_of_startsZeros {l : List Nat} (h : startsZeros 8 l) :
    containsRun8 l := by
  obtain ⟨s, hs⟩ := h
  exact ⟨[], s, hs⟩

/-- The scan succeeds exactly when the remaining input either starts with the
`8 - seen` zeros still needed, or contains a full fresh run of eight zeros. -/
theorem client_sync_loop_isSome (input : List Nat) :
    ∀ seen : Nat, seen ≤ 8 →
      ((client_sync_loop seen input).isSome ↔
        startsZeros (8 - seen) input ∨ containsRun8 input) := by
  induction input with
  | nil =>
      intro seen hle
      by_cases h8 : seen < 8
      · rw [client_sync_loop_nil h8]
        simp only [Option.isSome_none, Bool.false_eq_true, false_iff]
        rintro (⟨s, hs⟩ | ⟨p, s, hs⟩)
        · have := congrArg List.length hs
          simp only [List.length_nil, List.length_append, List.length_replicate] at this
          omega
        · have := congrArg List.length hs
          simp only [List.length_nil, List.length_append, List.length_replicate] at this
          omega
      · rw [client_sync_loop_done (by omega)]
        simp only [Option.isSome_some, true_iff]
        left
        rw [show 8 - seen = 0 from by omega]
        exact ⟨[], rfl⟩
  | cons b t ih =>
      intro seen hle
      by_cases h8 : seen < 8
      · rw [client_sync_loop_cons h8]
        have h2 : 8 - seen = (7 - seen) + 1 := by omega
        by_cases hb : b = 0
        · subst hb
          rw [if_pos rfl, ih (seen + 1) (by omega)]
          rw [show 8 - (seen + 1) = 7 - seen from by omega]
          rw [h2, startsZeros_succ_cons, containsRun8_cons]
          constructor
          · rintro (hz | hc)
            · exact Or.inl ⟨rfl, hz⟩
            · exact Or.inr (Or.inr hc)
          · rintro (⟨_, hz⟩ | ⟨_, hz7⟩ | hc)
            · exact Or.inl hz
            · exact Or.inl (startsZeros_mono (by omega) hz7)
            · exact Or.inr hc
        · rw [if_neg hb, ih 0 (by omega)]
          rw [show 8 - 0 = 8 from rfl]
          rw [h2, startsZeros_succ_cons, containsRun8_cons]
          constructor
          · rintro (hz8 | hc)
            · exact Or.inr (Or.inr (containsRun8_of_startsZeros hz8))
            · exact Or.inr (Or.inr hc)
          · rintro (⟨hb0, _⟩ | ⟨hb0, _⟩ | hc)
            · exact absurd hb0 hb
            · exact absurd hb0 hb
            · exact Or.inr hc
      · rw [client_sync_loop_done (by omega)]
        simp only [Option.isSome_some, true_iff]
        left
        rw [show 8 - seen = 0 from by omega]
        exact ⟨b :: t, rfl⟩

/-- On success the consumed part of the input ends in the synchronizing run:
either it is exactly the `8 - seen` zeros still needed, or it ends in a full
fresh run of eight zeros. -/
theorem client_sync_loop_some (input : List Nat) :
    ∀ seen r, seen ≤ 8 → client_sync_loop seen input = some r →
      input = List.replicate (8 - seen) 0 ++ r ∨
      ∃ p, input = p ++ (List.replicate 8 0 ++ r) := by
  induction input with
  | nil =>
      intro seen r hle hr
      by_cases h8 : seen < 8
      · rw [client_sync_loop_nil h8] at hr
        cases hr
      · rw [client_sync_loop_done (by omega)] at hr
        injection hr with hr
        left
        rw [show 8 - seen = 0 from by omega, ← hr]
        rfl
  | cons b t ih =>
      intro seen r hle hr
      by_cases h8 : seen < 8
      · rw [client_sync_loop_cons h8] at hr
        by_cases hb : b = 0
        · subst hb
          rw [if_pos rfl] at hr
          rcases ih (seen + 1) r (by omega) hr with h | ⟨p, hp⟩
          · left
            rw [show 8 - seen = (8 - (seen + 1)) + 1 from by omega,
              List.replicate_succ, List.cons_append, ← h]
          · right
            exact ⟨0 :: p, by rw [List.cons_append, hp]⟩
        · rw [if_neg hb] at hr
          rcases ih 0 r (by omega) hr with h | ⟨p, hp⟩
          · right
            exact ⟨[b], by rw [h]; rfl⟩
          · right
            exact ⟨b :: p, by rw [List.cons_append, hp]⟩
      · rw [client_sync_loop_done (by omega)] at hr
        injection hr with hr
        left
        rw [show 8 - seen = 0 from by omega, ← hr]
        rfl

/-- Completion point: with `seen` zeros already banked, the scan could
complete after consuming exactly `e` bytes of `input`. -/
def CompletionPoint (seen : Nat) (input : List Nat) (e : Nat) : Prop :=
  (8 ≤ e + seen ∧ ∃ s, input = List.replicate e 0 ++ s) ∨
  (∃ q s, input = q ++ (List.replicate 8 0 ++ s) ∧ e = q.length + 8)

/-- Minimality: the scan never consumes past any completion point. -/
theorem client_sync_loop_min (input : List Nat) :
    ∀ seen r e, client_sync_loop seen input = some r →
      CompletionPoint seen input e → input.length ≤ e + r.length := by
  induction input with
  | nil =>
      intro seen r e _ _
      simp
  | cons b t ih =>
      intro seen r e hr hcp
      by_cases h8 : seen < 8
      · rw [client_sync_loop_cons h8] at hr
        by_cases hb : b = 0
        · subst hb
          rw [if_pos rfl] at hr
          have he1 : 1 ≤ e := by
            rcases hcp with ⟨h8e, _, _⟩ | ⟨q, s, _, he⟩
            · omega
            · omega
          obtain ⟨e', rfl⟩ : ∃ e', e = e' + 1 := ⟨e - 1, by omega⟩
          have hcp' : CompletionPoint (seen + 1) t e' := by
            rcases hcp with ⟨h8e, s, hs⟩ | ⟨q, s, hs, he⟩
            · rw [List.replicate_succ, List.cons_append] at hs
              injection hs with _ h2
              exact Or.inl ⟨by omega, s, h2⟩
            · cases q with
              | nil =>
                  rw [List.nil_append, replicate_eight, List.cons_append] at hs
                  injection hs with _ h2
                  have he7 : e' = 7 := by simpa using he
                  subst he7
                  exact Or.inl ⟨by omega, s, h2⟩
              | cons a q' =>
                  rw [List.cons_append] at hs
                  injection hs with _ h2
                  refine Or.inr ⟨q', s, h2, ?_⟩
                  simp only [List.length_cons] at he
                  omega
          have := ih (seen + 1) r e' hr hcp'
          simp only [List.length_cons]
          omega
        · rw [if_neg hb] at hr
          rcases hcp with ⟨h8e, s, hs⟩ | ⟨q, s, hs, he⟩
          · obtain ⟨e', rfl⟩ : ∃ e', e = e' + 1 := ⟨e - 1, by omega⟩
            rw [List.replicate_succ, List.cons_append] at hs
            injection hs with h1 _
            exact absurd h1 hb
          · cases q with
            | nil =>
                rw [List.nil_append, replicate_eight, List.cons_append] at hs
                injection hs with h1 _
                exact absurd h1 hb
            | cons a q' =>
                rw [List.cons_append] at hs
                injection hs with _ h2
                have hcp' : CompletionPoint 0 t (q'.length + 8) :=
                  Or.inr ⟨q', s, h2, rfl⟩
                have := ih 0 r (q'.length + 8) hr hcp'
                simp only [List.length_cons] at he ⊢
                omega
      · rw [client_sync_loop_done (by omega)] at hr
        injection hr with hr
        rw [← hr]
        simp only [List.length_cons]
        omega

/-- C3: the scan succeeds exactly on inputs containing eight consecutive zero
bytes; on success the consumed part is the shortest one ending in such a run
(no byte past the eighth consecutive zero is consumed); and prepending any
finite sequence of non-zero bytes leaves the scan's result unchanged (the
run-length count resets on every non-zero byte). -/
theorem client_sync_spec (input : List Nat) :
    ((client_sync input).isSome ↔ containsRun8 input) ∧
    (∀ r, client_sync input = some r →
      ∃ p, input = p ++ (List.replicate 8 0 ++ r) ∧
        ∀ q s, input = q ++ (List.replicate 8 0 ++ s) → p.length ≤ q.length) ∧
    (∀ p, (∀ b ∈ p, b ≠ 0) → client_sync (p ++ input) = client_sync input) := by
  refine ⟨?_, ?_, ?_⟩
  · rw [show client_sync input = client_sync_loop 0 input from rfl,
      client_sync_loop_isSome input 0 (by omega)]
    constructor
    · rintro (hz | hc)
      · exact containsRun8_of_startsZeros hz
      · exact hc
    · exact Or.inr
  · intro r hr
    rcases client_sync_loop_some input 0 r (by omega) hr with h | ⟨p, hp⟩
    · exact ⟨[], h, fun q s _ => Nat.zero_le q.length⟩
    · refine ⟨p, hp, ?_⟩
      intro q s hq
      have hmin := client_sync_loop_min input 0 r (q.length + 8) hr
        (Or.inr ⟨q, s, hq, rfl⟩)
      have hlen := congrArg List.length hp
      simp only [List.length_append, List.length_replicate] at hlen
      omega
  · intro p
    induction p with
    | nil =>
        intro _
        rfl
    | cons a p' ih' =>
        intro hp
        have ha : a ≠ 0 := hp a (List.mem_cons_self a p')
        show client_sync_loop 0 ((a :: p') ++ input) = client_sync input
        rw [List.cons_append, client_sync_loop_cons (by omega), if_neg ha]
        exact ih' fun b hb => hp b (List.mem_cons_of_mem a hb)

/-- Witness for `client_sync_spec`: a stream with one leading non-zero byte
and a trailing byte synchronizes, and prepending the non-zero bytes `[2, 1]`
to a run of eight zeros leaves the scan's result unchanged. -/
theorem client_sync_spec_witness :
    (client_sync [3, 0, 0, 0, 0, 0, 0, 0, 0, 5]).isSome ∧
    client_sync ([2, 1] ++ [0, 0, 0, 0, 0, 0, 0, 0]) =
      client_sync [0, 0, 0, 0, 0, 0, 0, 0] := by
  refine ⟨?_, (client_sync_spec [0, 0, 0, 0, 0, 0, 0, 0]).2.2 [2, 1] (by decide)⟩
  rw [(client_sync_spec [3, 0, 0, 0, 0, 0, 0, 0, 0, 5]).1]
  exact ⟨[3], [5], rfl⟩

/-! ## C1: handshake -/

/-- The messages `server_main` writes before starting its read/write loops:
exactly `Hello(0, 1, [])` (lib.rs line 253); the writer pump that carries all
later messages is only started afterwards. -/
def server_main_first_writes : List Message := [Message.Hello 0 1 []]

/-- The handshake step of `client_main` (lib.rs lines 429–440): read the first
message; a non-`Hello` yields `Error::Protocol`; `Hello(major, minor, _)` with
`major != 0 || minor > 1` yields `Error::ProtocolVersion`; otherwise the
client's first written frames are `[Refresh]`. -/
def client_handshake (first : Message) : Except Error (List Message) :=
  match first with
  | Message.Hello major minor _ =>
      if major ≠ 0 ∨ minor > 1 then Except.error Error.ProtocolVersion
      else Except.ok [Message.Refresh]
  | _ => Except.error Error.Protocol

/-- C1: the server's first frame is `Hello(0, 1, [])`; the client rejects a
non-`Hello` first message with `Protocol`, returns `ProtocolVersion` exactly
when `major ≠ 0 ∨ minor > 1`, and on acceptance its first frame is
`Refresh`. -/
theorem handshake_spec :
    server_main_first_writes = [Message.Hello 0 1 []] ∧
    (∀ m : Message, (∀ major minor exts, m ≠ Message.Hello major minor exts) →
      client_handshake m = Except.error Error.Protocol) ∧
    ∀ major minor exts,
      (client_handshake (Message.Hello major minor exts) =
          Except.error Error.ProtocolVersion ↔ (major ≠ 0 ∨ 1 < minor)) ∧
      (major = 0 → minor ≤ 1 →
        client_handshake (Message.Hello major minor exts) =
          Except.ok [Message.Refresh]) := by
  refine ⟨rfl, ?_, ?_⟩
  · intro m hm
    cases m with
    | Hello major minor exts => exact absurd rfl (hm major minor exts)
    | _ => rfl
  · intro major minor exts
    constructor
    · simp only [client_handshake]
      by_cases hc : major ≠ 0 ∨ minor > 1
      · simp [hc]
      · simp [hc]
    · intro h0 h1
      have hc : ¬(major ≠ 0 ∨ minor > 1) := by omega
      simp [client_handshake, hc]

/-- Witness for `handshake_spec`: `Ping` is rejected with `Protocol`,
`Hello(1, 0, [])` with `ProtocolVersion`, and `Hello(0, 1, [])` is accepted
with first client frame `Refresh`. -/
theorem handshake_spec_witness :
    client_handshake Message.Ping = Except.error Error.Protocol ∧
    client_handshake (Message.Hello 1 0 []) = Except.error Error.ProtocolVersion ∧
    client_handshake (Message.Hello 0 1 []) = Except.ok [Message.Refresh] := by
  have h := handshake_spec
  exact ⟨h.2.1 Message.Ping (fun _ _ _ hc => by cases hc),
    (h.2.2 1 0 []).1.mpr (Or.inl (by decide)),
    (h.2.2 0 1 []).2 rfl (by decide)⟩

/-! ## C2: dispatcher behaviour on protocol-error message kinds -/

/-- Outcome of one reader-dispatcher iteration on a received message:
`handled` (the arm completes and the loop continues), `errored e` (the
dispatcher returns `Err(e)`), or `panicked` (the arm is the catch-all
`panic!("Unsupported: ...")`, which aborts rather than returning). -/
inductive ReadOutcome where
  | handled : ReadOutcome
  | errored (e : Error) : ReadOutcome
  | panicked : ReadOutcome
deriving DecidableEq, Repr

/-- Per-message dispatch of `client_read` (lib.rs lines 360–421): the `Ping`,
`Connected`, `Close`, `Data` and `Ports` arms complete and the loop continues;
every other kind (`Hello`, `Refresh`, `Connect`) hits the
`_ => panic!("Unsupported: ...")` arm. -/
def client_read_dispatch : Message → ReadOutcome
  | Message.Ping => ReadOutcome.handled
  | Message.Connected _ => ReadOutcome.handled
  | Message.Close _ => ReadOutcome.handled
  | Message.Data _ _ => ReadOutcome.handled
  | Message.Ports _ => ReadOutcome.handled
  | _ => ReadOutcome.panicked

/-- Per-message dispatch of `server_read` (lib.rs lines 200–242): the `Ping`,
`Connect`, `Close`, `Data` and `Refresh` arms complete and the loop continues;
every other kind (`Hello`, `Connected`, `Ports`) hits the
`_ => panic!("Unsupported: ...")` arm. -/
def server_read_dispatch : Message → ReadOutcome
  | Message.Ping => ReadOutcome.handled
  | Message.Connect _ _ => ReadOutcome.handled
  | Message.Close _ => ReadOutcome.handled
  | Message.Data _ _ => ReadOutcome.handled
  | Message.Refresh => ReadOutcome.handled
  | _ => ReadOutcome.panicked

/-- C2 fails as stated: on a post-handshake `Hello` the client dispatcher
panics; it does not return an error value. -/
theorem dispatch_errors_counterexample :
    client_read_dispatch (Message.Hello 0 1 []) = ReadOutcome.panicked ∧
    ¬∃ e : Error, client_read_dispatch (Message.Hello 0 1 []) = ReadOutcome.errored e :=
  ⟨rfl, fun ⟨_, h⟩ => ReadOutcome.noConfusion h⟩

/-- C2 amended: on every message kind that is a protocol error for the
receiving role (client: `Hello`, `Refresh`, `Connect`; server: `Hello`,
`Connected`, `Ports`), the dispatcher hits the `panic!` arm — it neither
continues the loop nor returns an error value. -/
theorem dispatch_protocol_error_panics :
    (∀ major minor exts,
      client_read_dispatch (Message.Hello major minor exts) = ReadOutcome.panicked) ∧
    client_read_dispatch Message.Refresh = ReadOutcome.panicked ∧
    (∀ channel port,
      client_read_dispatch (Message.Connect channel port) = ReadOutcome.panicked) ∧
    (∀ major minor exts,
      server_read_dispatch (Message.Hello major minor exts) = ReadOutcome.panicked) ∧
    (∀ channel, server_read_dispatch (Message.Connected channel) = ReadOutcome.panicked) ∧
    (∀ ports, server_read_dispatch (Message.Ports ports) = ReadOutcome.panicked) :=
  ⟨fun _ _ _ => rfl, rfl, fun _ _ => rfl, fun _ _ _ => rfl, fun _ => rfl, fun _ => rfl⟩

/-! ## C5: Ports reconciliation -/

/-- A listener's stop signal (`oneshot::Sender<()>` in the `listeners` map):
its identity and whether the receiving end is still live
(`live = !is_closed()`). -/
structure Stopper where
  sid : Nat
  live : Bool
deriving DecidableEq, Repr

/-- Insert into a listener map (`HashMap::insert`), modelled extensionally. -/
def mapInsert (m : Nat → Option Stopper) (k : Nat) (v : Stopper) :
    Nat → Option Stopper :=
  fun q => if q = k then some v else m q

/-- Remove from a listener map (`HashMap::remove`). -/
def mapRemove (m : Nat → Option Stopper) (k : Nat) : Nat → Option Stopper :=
  fun q => if q = k then none else m q

theorem mapInsert_same (m : Nat → Option Stopper) (k : Nat) (v : Stopper) :
    mapInsert m k v k = some v := if_pos rfl

theorem mapInsert_other (m : Nat → Option Stopper) (k : Nat) (v : Stopper)
    (q : Nat) (h : q ≠ k) : mapInsert m k v q = m q := if_neg h

theorem mapRemove_same (m : Nat → Option Stopper) (k : Nat) :
    mapRemove m k k = none := if_pos rfl

theorem mapRemove_other (m : Nat → Option Stopper) (k : Nat) (q : Nat)
    (h : q ≠ k) : mapRemove m k q = m q := if_neg h

/-- The for-loop of the `Ports(ports)` arm of `client_read` (lib.rs lines
381–419).  For each announced port: `listeners.remove(&port)`; if the removed
stop signal is still live, keep it in `new_listeners`; then, if
`new_listeners` still has no entry for the port, create a fresh oneshot stop
signal (identity `fresh`, live) and spawn a listener.  The result is the
final `new_listeners` map and the remaining fresh-identity supply. -/
def ports_arm_loop : List PortDesc → (Nat → Option Stopper) →
    (Nat → Option Stopper) → Nat → (Nat → Option Stopper) × Nat
  | [], _, newL, fresh => (newL, fresh)
  | pd :: rest, old, newL, fresh =>
      let step : (Nat → Option Stopper) × (Nat → Option Stopper) :=
        match old pd.port with
        | some l =>
            (mapRemove old pd.port,
              if l.live then mapInsert newL pd.port l else newL)
        | none => (old, newL)
      if (step.2 pd.port).isSome then
        ports_arm_loop rest step.1 step.2 fresh
      else
        ports_arm_loop rest step.1 (mapInsert step.2 pd.port ⟨fresh, true⟩)
          (fresh + 1)

/-- The whole `Ports(ports)` arm: run the loop with an empty `new_listeners`
map, then replace `listeners` wholesale with the result (entries of the old
map not carried over are dropped, which fires their stop signals). -/
def ports_arm (ports : List PortDesc) (listeners : Nat → Option Stopper)
    (fresh : Nat) : (Nat → Option Stopper) × Nat :=
  ports_arm_loop ports listeners (fun _ => none) fresh

theorem ports_arm_loop_keep (pd : PortDesc) (rest : List PortDesc)
    (old newL : Nat → Option Stopper) (fresh : Nat) {l : Stopper}
    (hold : old pd.port = some l) (hlive : l.live = true) :
    ports_arm_loop (pd :: rest) old newL fresh =
      ports_arm_loop rest (mapRemove old pd.port)
        (mapInsert newL pd.port l) fresh := by
  conv_lhs => unfold ports_arm_loop
  simp [hold, hlive, mapInsert_same]

theorem ports_arm_loop_dead (pd : PortDesc) (rest : List PortDesc)
    (old newL : Nat → Option Stopper) (fresh : Nat) {l : Stopper}
    (hold : old pd.port = some l) (hlive : l.live = false)
    (hnew : newL pd.port = none) :
    ports_arm_loop (pd :: rest) old newL fresh =
      ports_arm_loop rest (mapRemove old pd.port)
        (mapInsert newL pd.port ⟨fresh, true⟩) (fresh + 1) := by
  conv_lhs => unfold ports_arm_loop
  simp [hold, hlive, hnew]

theorem ports_arm_loop_existing (pd : PortDesc) (rest : List PortDesc)
    (old newL : Nat → Option Stopper) (fresh : Nat) {v : Stopper}
    (hold : old pd.port = none) (hnew : newL pd.port = some v) :
    ports_arm_loop (pd :: rest) old newL fresh =
      ports_arm_loop rest old newL fresh := by
  conv_lhs => unfold ports_arm_loop
  simp [hold, hnew]

theorem ports_arm_loop_fresh (pd : PortDesc) (rest : List PortDesc)
    (old newL : Nat → Option Stopper) (fresh : Nat)
    (hold : old pd.port = none) (hnew : newL pd.port = none) :
    ports_arm_loop (pd :: rest) old newL fresh =
      ports_arm_loop rest old (mapInsert newL pd.port ⟨fresh, true⟩)
        (fresh + 1) := by
  conv_lhs => unfold ports_arm_loop
  simp [hold, hnew]

/-- Invariant of the reconciliation loop.  Under the disjointness invariant
(`new_listeners` entries have already been removed from `listeners`): entries
already in `new_listeners` persist; the final key set is the keys of
`new_listeners` plus the remaining announced ports; an announced port whose
old listener is live keeps exactly that listener; an announced port with no
live old listener gets a live stop signal with identity at least `fresh`;
and the fresh-identity supply only grows. -/
theorem mem_map_cons_ne {q : Nat} {pd : PortDesc} {rest : List PortDesc}
    (hq : q ∈ (pd :: rest).map PortDesc.port) (hqp : q ≠ pd.port) :
    q ∈ rest.map PortDesc.port := by
  rw [List.map_cons] at hq
  rcases List.mem_cons.mp hq with h' | h'
  · exact absurd h' hqp
  · exact h'

theorem ports_arm_loop_spec (rest : List PortDesc) :
    ∀ old newL : Nat → Option Stopper, ∀ fresh : Nat,
      (∀ q, (newL q).isSome → old q = none) →
      ((∀ q, (newL q).isSome →
          (ports_arm_loop rest old newL fresh).1 q = newL q) ∧
       (∀ q, ((ports_arm_loop rest old newL fresh).1 q).isSome ↔
          ((newL q).isSome ∨ q ∈ rest.map PortDesc.port)) ∧
       (∀ q l, q ∈ rest.map PortDesc.port → old q = some l → l.live = true →
          (ports_arm_loop rest old newL fresh).1 q = some l) ∧
       (∀ q, q ∈ rest.map PortDesc.port → newL q = none →
          (∀ l, old q = some l → l.live = false) →
          ∃ st : Stopper, (ports_arm_loop rest old newL fresh).1 q = some st ∧
            st.live = true ∧ fresh ≤ st.sid) ∧
       fresh ≤ (ports_arm_loop rest old newL fresh).2) := by
  induction rest with
  | nil =>
      intro old newL fresh hI1
      refine ⟨fun q _ => rfl, fun q => by simp [ports_arm_loop],
        fun q l hq => absurd hq (by simp), fun q hq => absurd hq (by simp),
        Nat.le_refl fresh⟩
  | cons pd rest' ih =>
      intro old newL fresh hI1
      rcases hold : old pd.port with _ | l
      · -- no old listener for this port
        rcases hnewp : newL pd.port with _ | v
        · -- fresh spawn
          rw [ports_arm_loop_fresh pd rest' old newL fresh hold hnewp]
          have hI1' : ∀ q, ((mapInsert newL pd.port ⟨fresh, true⟩) q).isSome →
              old q = none := by
            intro q hq
            by_cases hqp : q = pd.port
            · subst hqp
              exact hold
            · rw [mapInsert_other _ _ _ _ hqp] at hq
              exact hI1 q hq
          have H := ih old (mapInsert newL pd.port ⟨fresh, true⟩) (fresh + 1) hI1'
          refine ⟨?_, ?_, ?_, ?_, ?_⟩
          · intro q hq
            have hqp : q ≠ pd.port := fun he => by rw [he, hnewp] at hq; simp at hq
            have h1 := H.1 q (by rw [mapInsert_other _ _ _ _ hqp]; exact hq)
            rw [h1, mapInsert_other _ _ _ _ hqp]
          · intro q
            rw [H.2.1 q]
            by_cases hqp : q = pd.port
            · subst hqp
              simp [mapInsert_same]
            · rw [mapInsert_other _ _ _ _ hqp]
              simp [hqp]
          · intro q l' hq hl hlive
            have hqp : q ≠ pd.port := fun he => by rw [he, hold] at hl; cases hl
            have hq' : q ∈ rest'.map PortDesc.port := mem_map_cons_ne hq hqp
            exact H.2.2.1 q l' hq' hl hlive
          · intro q hq hnone hdead
            by_cases hqp : q = pd.port
            · subst hqp
              refine ⟨⟨fresh, true⟩, ?_, rfl, Nat.le_refl fresh⟩
              have h1 := H.1 pd.port (by rw [mapInsert_same]; rfl)
              rw [h1, mapInsert_same]
            · have hq' : q ∈ rest'.map PortDesc.port := mem_map_cons_ne hq hqp
              obtain ⟨st, hst, hstl, hsts⟩ := H.2.2.2.1 q hq'
                (by rw [mapInsert_other _ _ _ _ hqp]; exact hnone) hdead
              exact ⟨st, hst, hstl, by omega⟩
          · exact Nat.le_trans (by omega) H.2.2.2.2
        · -- an entry is already in new_listeners: nothing to do
          rw [ports_arm_loop_existing pd rest' old newL fresh hold hnewp]
          have H := ih old newL fresh hI1
          refine ⟨H.1, ?_, ?_, ?_, H.2.2.2.2⟩
          · intro q
            rw [H.2.1 q]
            by_cases hqp : q = pd.port
            · subst hqp
              simp [hnewp]
            · simp [hqp]
          · intro q l' hq hl hlive
            have hqp : q ≠ pd.port := fun he => by rw [he, hold] at hl; cases hl
            have hq' : q ∈ rest'.map PortDesc.port := mem_map_cons_ne hq hqp
            exact H.2.2.1 q l' hq' hl hlive
          · intro q hq hnone hdead
            have hqp : q ≠ pd.port := fun he => by rw [he, hnewp] at hnone; cases hnone
            have hq' : q ∈ rest'.map PortDesc.port := mem_map_cons_ne hq hqp
            exact H.2.2.2.1 q hq' hnone hdead
      · -- an old listener exists for this port
        have hnewp : newL pd.port = none := by
          rcases hn : newL pd.port with _ | w
          · rfl
          · have h0 := hI1 pd.port (by rw [hn]; rfl)
            rw [h0] at hold
            cases hold
        cases hlive : l.live with
        | false =>
            rw [ports_arm_loop_dead pd rest' old newL fresh hold hlive hnewp]
            have hI1' : ∀ q, ((mapInsert newL pd.port ⟨fresh, true⟩) q).isSome →
                mapRemove old pd.port q = none := by
              intro q hq
              by_cases hqp : q = pd.port
              · subst hqp
                exact mapRemove_same _ _
              · rw [mapInsert_other _ _ _ _ hqp] at hq
                rw [mapRemove_other _ _ _ hqp]
                exact hI1 q hq
            have H := ih (mapRemove old pd.port)
              (mapInsert newL pd.port ⟨fresh, true⟩) (fresh + 1) hI1'
            refine ⟨?_, ?_, ?_, ?_, ?_⟩
            · intro q hq
              have hqp : q ≠ pd.port := fun he => by rw [he, hnewp] at hq; simp at hq
              have h1 := H.1 q (by rw [mapInsert_other _ _ _ _ hqp]; exact hq)
              rw [h1, mapInsert_other _ _ _ _ hqp]
            · intro q
              rw [H.2.1 q]
              by_cases hqp : q = pd.port
              · subst hqp
                simp [mapInsert_same]
              · rw [mapInsert_other _ _ _ _ hqp]
                simp [hqp]
            · intro q l' hq hl hlive'
              by_cases hqp : q = pd.port
              · subst hqp
                rw [hold] at hl
                injection hl with hll
                subst hll
                rw [hlive] at hlive'
                cases hlive'
              · have hq' : q ∈ rest'.map PortDesc.port := mem_map_cons_ne hq hqp
                exact H.2.2.1 q l' hq'
                  (by rw [mapRemove_other _ _ _ hqp]; exact hl) hlive'
            · intro q hq hnone hdead
              by_cases hqp : q = pd.port
              · subst hqp
                refine ⟨⟨fresh, true⟩, ?_, rfl, Nat.le_refl fresh⟩
                have h1 := H.1 pd.port (by rw [mapInsert_same]; rfl)
                rw [h1, mapInsert_same]
              · have hq' : q ∈ rest'.map PortDesc.port := mem_map_cons_ne hq hqp
                obtain ⟨st, hst, hstl, hsts⟩ := H.2.2.2.1 q hq'
                  (by rw [mapInsert_other _ _ _ _ hqp]; exact hnone)
                  (fun l' h' => hdead l' (by rwa [mapRemove_other _ _ _ hqp] at h'))
                exact ⟨st, hst, hstl, by omega⟩
            · exact Nat.le_trans (by omega) H.2.2.2.2
        | true =>
            rw [ports_arm_loop_keep pd rest' old newL fresh hold hlive]
            have hI1' : ∀ q, ((mapInsert newL pd.port l) q).isSome →
                mapRemove old pd.port q = none := by
              intro q hq
              by_cases hqp : q = pd.port
              · subst hqp
                exact mapRemove_same _ _
              · rw [mapInsert_other _ _ _ _ hqp] at hq
                rw [mapRemove_other _ _ _ hqp]
                exact hI1 q hq
            have H := ih (mapRemove old pd.port) (mapInsert newL pd.port l)
              fresh hI1'
            refine ⟨?_, ?_, ?_, ?_, H.2.2.2.2⟩
            · intro q hq
              have hqp : q ≠ pd.port := fun he => by rw [he, hnewp] at hq; simp at hq
              have h1 := H.1 q (by rw [mapInsert_other _ _ _ _ hqp]; exact hq)
              rw [h1, mapInsert_other _ _ _ _ hqp]
            · intro q
              rw [H.2.1 q]
              by_cases hqp : q = pd.port
              · subst hqp
                simp [mapInsert_same]
              · rw [mapInsert_other _ _ _ _ hqp]
                simp [hqp]
            · intro q l' hq hl hlive'
              by_cases hqp : q = pd.port
              · subst hqp
                rw [hold] at hl
                injection hl with hll
                subst hll
                have h1 := H.1 pd.port (by rw [mapInsert_same]; rfl)
                rw [h1, mapInsert_same]
              · have hq' : q ∈ rest'.map PortDesc.port := mem_map_cons_ne hq hqp
                exact H.2.2.1 q l' hq'
                  (by rw [mapRemove_other _ _ _ hqp]; exact hl) hlive'
            · intro q hq hnone hdead
              by_cases hqp : q = pd.port
              · subst hqp
                have := hdead l hold
                rw [hlive] at this
                cases this
              · have hq' : q ∈ rest'.map PortDesc.port := mem_map_cons_ne hq hqp
                exact H.2.2.2.1 q hq'
                  (by rw [mapInsert_other _ _ _ _ hqp]; exact hnone)
                  (fun l' h' => hdead l' (by rwa [mapRemove_other _ _ _ hqp] at h'))

/-- C5: after the client processes `Ports(ports)`, the listener map's key set
is exactly the set of announced ports; an announced port whose existing
listener's stop signal is still live keeps that exact listener; every other
announced port gets a newly spawned listener with a fresh, live stop signal;
and every previously tracked port not announced is absent from the resulting
map (its entry — and with it its stop signal — is dropped, which fires the
signal). -/
theorem ports_reconciliation (ports : List PortDesc)
    (listeners : Nat → Option Stopper) (fresh : Nat) :
    (∀ q, ((ports_arm ports listeners fresh).1 q).isSome ↔
        q ∈ ports.map PortDesc.port) ∧
    (∀ q l, q ∈ ports.map PortDesc.port → listeners q = some l →
        l.live = true → (ports_arm ports listeners fresh).1 q = some l) ∧
    (∀ q, q ∈ ports.map PortDesc.port →
        (∀ l, listeners q = some l → l.live = false) →
        ∃ st : Stopper, (ports_arm ports listeners fresh).1 q = some st ∧
          st.live = true ∧ fresh ≤ st.sid) ∧
    (∀ q, q ∉ ports.map PortDesc.port →
        (ports_arm ports listeners fresh).1 q = none) := by
  have H := ports_arm_loop_spec ports listeners (fun _ => none) fresh
    (fun q hq => by simp at hq)
  refine ⟨?_, ?_, ?_, ?_⟩
  · intro q
    show ((ports_arm_loop ports listeners (fun _ => none) fresh).1 q).isSome ↔
      q ∈ ports.map PortDesc.port
    rw [H.2.1 q]
    simp
  · exact fun q l hq hl hlive => H.2.2.1 q l hq hl hlive
  · exact fun q hq hdead => H.2.2.2.1 q hq rfl hdead
  · intro q hq
    rcases hm : (ports_arm ports listeners fresh).1 q with _ | v
    · rfl
    · exfalso
      apply hq
      have h1 : ((ports_arm ports listeners fresh).1 q).isSome := by
        rw [hm]
        rfl
      rcases (H.2.1 q).mp h1 with h' | h'
      · simp at h'
      · exact h'

/-- Witness for `ports_reconciliation`, the spec's reconciliation scenario:
announcing ports `[7, 8]` and then `[8, 9]` leaves the client with listeners
exactly on 8 and 9, and the listener on 7 is gone. -/
theorem ports_reconciliation_witness :
    ((ports_arm [⟨8, "b"⟩, ⟨9, "c"⟩]
        (ports_arm [⟨7, "a"⟩, ⟨8, "b"⟩] (fun _ => none) 0).1
        (ports_arm [⟨7, "a"⟩, ⟨8, "b"⟩] (fun _ => none) 0).2).1 8).isSome ∧
    ((ports_arm [⟨8, "b"⟩, ⟨9, "c"⟩]
        (ports_arm [⟨7, "a"⟩, ⟨8, "b"⟩] (fun _ => none) 0).1
        (ports_arm [⟨7, "a"⟩, ⟨8, "b"⟩] (fun _ => none) 0).2).1 9).isSome ∧
    (ports_arm [⟨8, "b"⟩, ⟨9, "c"⟩]
        (ports_arm [⟨7, "a"⟩, ⟨8, "b"⟩] (fun _ => none) 0).1
        (ports_arm [⟨7, "a"⟩, ⟨8, "b"⟩] (fun _ => none) 0).2).1 7 = none := by
  have h := ports_reconciliation [⟨8, "b"⟩, ⟨9, "c"⟩]
    (ports_arm [⟨7, "a"⟩, ⟨8, "b"⟩] (fun _ => none) 0).1
    (ports_arm [⟨7, "a"⟩, ⟨8, "b"⟩] (fun _ => none) 0).2
  exact ⟨(h.1 8).mpr (by decide), (h.1 9).mpr (by decide),
    h.2.2.2 7 (by decide)⟩

end Fwd
